import Mathlib

/-! A 6502 emulator core: memory, processor and the execute loop.

Shallow embedding of `ConsoleApplication1.cpp`.

* Machine integers are bounded naturals (`u8`, `u16`, `u32`); every C++
  truncation and wrap-around is written as an explicit `% 2^w`.
* The one-bit bit-fields of `CPU::PS` are `Bool`s.
* `cycles`, which the C++ code threads by reference through the helpers, is a
  field of the `Machine` configuration next to the processor and the memory.
* A failed `assert(address < MAX_MEMORY)` and a raw access outside `Data`
  (undefined behaviour in C++) are both the result `none`.
* `execute` is a `while` loop; it is embedded with a fuel argument counting the
  loop iterations (instructions) it may run.
* The text written to `std::cout` by the default case is not part of the state.
-/

namespace Emu6502

/-! ## Machine integers -/

abbrev u8 := Fin 256
abbrev u16 := Fin 65536
abbrev u32 := Fin 4294967296

/-- Conversion of a natural number to `u8` (truncation to 8 bits). -/
def toU8 (n : Nat) : u8 := ⟨n % 256, Nat.mod_lt n (by decide)⟩

/-- Conversion of a natural number to `u16` (truncation to 16 bits). -/
def toU16 (n : Nat) : u16 := ⟨n % 65536, Nat.mod_lt n (by decide)⟩

/-- Conversion of a natural number to `u32` (truncation to 32 bits). -/
def toU32 (n : Nat) : u32 := ⟨n % 4294967296, Nat.mod_lt n (by decide)⟩

/-- Conversion of a C++ `int` (possibly negative) to `u8`. -/
def intToU8 (i : Int) : u8 := toU8 (i % 256).toNat

/-- Conversion of a C++ `int` (possibly negative) to `u32`. -/
def intToU32 (i : Int) : u32 := toU32 (i % 4294967296).toNat

/-- The C++ `cycles -= k` on a `u32` (for `k ≤ 2^32`): subtraction modulo `2^32`. -/
def subCycles (cycles : u32) (k : Nat) : u32 := toU32 (cycles.val + 4294967296 - k)

/-! ## Opcodes (`INSTRUCTIONS`) -/

def INS_LDA_IMMEDIATE : u8 := 0xA9
def INS_LDA_ZP : u8 := 0xA5
def INS_LDA_ZPX : u8 := 0xB5
def INS_JSR_ABSOLUTE : u8 := 0x20

/-! ## Memory -/

def MAX_MEMORY : Nat := 1024 * 64

/-- The C++ `struct Memory`: the array `u8 Data[MAX_MEMORY]`. -/
structure Memory where
  Data : Fin 65536 → u8

/-- The raw C++ assignment `Data[a] = v` for an index inside the array. -/
def Memory.store (m : Memory) (a : Fin 65536) (v : u8) : Memory :=
  ⟨fun x => if x = a then v else m.Data x⟩

/-- The image a default-constructed `Memory` has (`u8 Data[MAX_MEMORY]{}`). -/
def Memory.zero : Memory := ⟨fun _ => 0⟩

/-- An 8-bit value (a zero-page address, a cell value) used as an index of `Data`. -/
def zeroPage (a : u8) : Fin 65536 := ⟨a.val, Nat.lt_trans a.isLt (by decide)⟩

/-- The lambda of `Memory::initialize`, `[=] (int i) mutable {Data[i] = 0; }`: its
argument `i` is the value of the visited cell, and it stores 0 at index `i`. -/
def Memory.initializeLambda (m : Memory) (i : u8) : Memory := m.store (zeroPage i) 0

/-- The C++ `Memory::initialize`: `std::for_each` visits the cells of `Data` in
order and calls the lambda with the value each cell holds at that moment. -/
def Memory.initialize (m : Memory) : Memory :=
  (List.finRange 65536).foldl (fun acc k => acc.initializeLambda (acc.Data k)) m

/-- The C++ `Memory::operator[]` used as a read: `assert(address < MAX_MEMORY)`,
then `Data[address]`. -/
def Memory.read (m : Memory) (address : Nat) : Option u8 :=
  if h : address < MAX_MEMORY then some (m.Data ⟨address, h⟩) else none

/-- The C++ `Memory::operator[]` used as the target of an assignment:
`assert(address < MAX_MEMORY)`, then `Data[address] = v`. -/
def Memory.write (m : Memory) (address : Nat) (v : u8) : Option Memory :=
  if h : address < MAX_MEMORY then some (m.store ⟨address, h⟩ v) else none

/-- The C++ `Memory::writeBytes(cycles, value, address)`: two raw stores at
`address` and `address + 1` (computed in `u32`), then `cycles -= 2`. There is no
assertion; a store outside the array is the result `none`. -/
def Memory.writeBytes (m : Memory) (cycles : u32) (value : u16) (address : u32) :
    Option (Memory × u32) :=
  if h1 : address.val < MAX_MEMORY then
    if h2 : (toU32 (address.val + 1)).val < MAX_MEMORY then
      some (((m.store ⟨address.val, h1⟩ (toU8 (value.val &&& 0xff))).store
              ⟨(toU32 (address.val + 1)).val, h2⟩ (toU8 (value.val >>> 8))),
            subCycles cycles 2)
    else none
  else none

/-! ## Processor -/

/-- The C++ bit-field `CPU::PS`: seven one-bit flags. -/
structure Flags where
  C : Bool
  Z : Bool
  I : Bool
  D : Bool
  B : Bool
  O : Bool
  N : Bool

/-- The C++ `struct CPU`: program counter, four 8-bit registers, the flags. -/
structure CPU where
  PC : u16
  SP : u8
  Acc : u8
  X : u8
  Y : u8
  PS : Flags

/-- A running configuration: the processor, the memory it works on and the
`cycles` counter of `execute`. -/
structure Machine where
  cpu : CPU
  memory : Memory
  cycles : u32

/-- The C++ `CPU::reset`. `SP` is a `u8`, so `SP = 0x0100` stores `0x0100 % 256`. -/
def CPU.reset (cpu : CPU) (memory : Memory) : CPU × Memory :=
  ({ cpu with
      PC := toU16 0xFFFC, SP := toU8 0x0100, Acc := 0, X := 0, Y := 0,
      PS := { C := false, Z := false, I := false, D := false, B := false,
              O := false, N := false } },
   Memory.initialize memory)

/-- The C++ `CPU::fetchByte`: `memory[PC]`, `PC++`, `cycles--`. -/
def CPU.fetchByte (m : Machine) : Option (u8 × Machine) := do
  let data ← m.memory.read m.cpu.PC.val
  pure (data, { m with cpu := { m.cpu with PC := toU16 (m.cpu.PC.val + 1) },
                       cycles := subCycles m.cycles 1 })

/-- The C++ `CPU::readByte`: `memory[address]` for a `u8` address, `cycles--`. -/
def CPU.readByte (m : Machine) (address : u8) : Option (u8 × Machine) := do
  let data ← m.memory.read address.val
  pure (data, { m with cycles := subCycles m.cycles 1 })

/-- The C++ `CPU::fetchAbsoluteAddressing`: `data = memory[PC]`, `PC++`,
`data |= memory[PC] << 8`, `PC++`, `cycles -= 2`. -/
def CPU.fetchAbsoluteAddressing (m : Machine) : Option (u16 × Machine) := do
  let lo ← m.memory.read m.cpu.PC.val
  let pc1 := toU16 (m.cpu.PC.val + 1)
  let hi ← m.memory.read pc1.val
  let data := toU16 (lo.val ||| (hi.val <<< 8))
  let pc2 := toU16 (pc1.val + 1)
  pure (data, { m with cpu := { m.cpu with PC := pc2 }, cycles := subCycles m.cycles 2 })

/-- The C++ `CPU::LDASetStatus`. -/
def CPU.LDASetStatus (cpu : CPU) : CPU :=
  { cpu with PS := { cpu.PS with Z := decide (cpu.Acc = 0),
                                 N := decide ((cpu.Acc.val &&& 0b10000000) > 0) } }

/-- One iteration of the `while` loop of `CPU::execute`: fetch the opcode, then
the `switch`. -/
def CPU.step (m : Machine) : Option Machine := do
  let (instruction, m) ← CPU.fetchByte m
  if instruction = INS_LDA_IMMEDIATE then
    let (value, m) ← CPU.fetchByte m
    pure { m with cpu := CPU.LDASetStatus { m.cpu with Acc := value } }
  else if instruction = INS_LDA_ZP then
    let (zp, m) ← CPU.fetchByte m
    let zeroPageAddress := toU8 (zp.val + m.cpu.X.val)
    let m := { m with cycles := subCycles m.cycles 1 }
    let (value, m) ← CPU.readByte m zeroPageAddress
    pure { m with cpu := CPU.LDASetStatus { m.cpu with Acc := value } }
  else if instruction = INS_LDA_ZPX then
    let (zeroPageAddress, m) ← CPU.fetchByte m
    let (value, m) ← CPU.readByte m zeroPageAddress
    pure { m with cpu := CPU.LDASetStatus { m.cpu with Acc := value } }
  else if instruction = INS_JSR_ABSOLUTE then
    let (subRtnAddr, m) ← CPU.fetchAbsoluteAddressing m
    let pcMinus1 : Int := (m.cpu.PC.val : Int) - 1
    let (mem, cyc) ← m.memory.writeBytes m.cycles (toU16 m.cpu.SP.val) (intToU32 pcMinus1)
    let mem ← mem.write m.cpu.SP.val (intToU8 pcMinus1)
    let cyc := subCycles cyc 1
    let cyc := subCycles cyc 1
    pure { cpu := { m.cpu with PC := subRtnAddr, SP := toU8 (m.cpu.SP.val + 1) },
           memory := mem, cycles := cyc }
  else
    pure m

/-- How a call of `execute` ends: it returns, it hits an out-of-range access, or
the fuel of the embedding runs out first. -/
inductive Outcome where
  | returned (m : Machine)
  | fault
  | outOfFuel

/-- The C++ `CPU::execute`: `while (cycles > 0) { ... }`. `fuel` bounds the number
of loop iterations; `m.cycles` is the budget. -/
def CPU.execute : Nat → Machine → Outcome
  | 0, m => if 0 < m.cycles.val then Outcome.outOfFuel else Outcome.returned m
  | fuel + 1, m =>
    if 0 < m.cycles.val then
      match CPU.step m with
      | none => Outcome.fault
      | some m1 => CPU.execute fuel m1
    else Outcome.returned m

/-- The set-up of the C++ `main` before `execute`: a zeroed `Memory`, `reset`,
then three (or fewer) bytes poked through `operator[]`, and the budget. -/
def setup (cpu : CPU) (pokes : List (Nat × u8)) (budget : Nat) : Option Machine := do
  let (cpu1, mem1) := CPU.reset cpu Memory.zero
  let mem ← pokes.foldlM (fun acc p => acc.write p.1 p.2) mem1
  pure { cpu := cpu1, memory := mem, cycles := toU32 budget }

/-- The C++ `main`: `LDA` zero page at `0xFFFC`, operand `0x42`, `0x84` at `0x0042`,
budget 3. The processor `cpu` is whatever the uninitialised `CPU cpu;` holds. -/
def mainMachine (cpu : CPU) : Option Machine :=
  setup cpu [(0xFFFC, INS_LDA_ZP), (0xFFFD, 0x42), (0x0042, 0x84)] 3

/-! ## Concrete machines used below -/

/-- A processor with every register and flag zero and `PC = 0xFFFC`. -/
def cpu0 : CPU :=
  { PC := 0xFFFC, SP := 0, Acc := 0, X := 0, Y := 0,
    PS := { C := false, Z := false, I := false, D := false, B := false,
            O := false, N := false } }

/-- The memory of `main` at the call of `execute`. -/
def mainMemory : Memory :=
  ((Memory.zero.store 0xFFFC INS_LDA_ZP).store 0xFFFD 0x42).store 0x0042 0x84

/-- The machine of `main` once `Acc = 0x84` is loaded, at program counter `pc` with
`c` cycles left. -/
def mainState (pc : u16) (c : Nat) : Machine :=
  { cpu := { PC := pc, SP := 0, Acc := 0x84, X := 0, Y := 0,
             PS := { C := false, Z := false, I := false, D := false, B := false,
                     O := false, N := true } },
    memory := mainMemory, cycles := toU32 c }

/-- The scenario "reset, `0xA9` at `0xFFFC`, `0x00` at `0xFFFD`, budget 2". -/
def immediateMachine : Machine :=
  { cpu := cpu0, memory := (Memory.zero.store 0xFFFC INS_LDA_IMMEDIATE).store 0xFFFD 0x00,
    cycles := toU32 2 }

/-- A machine with `X = 1` about to run opcode `op` with operand `0x42`; the cells
`0x42` and `0x43` hold `0x84` and `0x11`. -/
def indexedMachine (op : u8) : Machine :=
  { cpu := { cpu0 with X := 1 },
    memory := (((Memory.zero.store 0xFFFC op).store 0xFFFD 0x42).store 0x0042 0x84).store
                0x0043 0x11,
    cycles := toU32 4 }

/-- A machine as `reset` leaves the processor, holding the program bytes `op`,
`0x42`, `0x80` from `0xFFFC` on and `0x84` in cell `0x0042`, with the given budget. -/
def budgetMachine (op : u8) (budget : Nat) : Machine :=
  { cpu := cpu0,
    memory := (((Memory.zero.store 0xFFFC op).store 0xFFFD 0x42).store 0xFFFE 0x80).store
                0x0042 0x84,
    cycles := toU32 budget }

/-- A memory image whose cell `0x0300` holds 7, every other cell 0. -/
def staleMemory : Memory := Memory.zero.store 0x0300 7

/-- A memory image filled with the opcode `LDA` immediate. -/
def immediateEverywhere : Memory := ⟨fun _ => INS_LDA_IMMEDIATE⟩

/-- The machine with processor `cpu`, the memory filled with `LDA` immediate, and
a budget of 1. -/
def spinMachine (cpu : CPU) : Machine :=
  { cpu := cpu, memory := immediateEverywhere, cycles := toU32 1 }

/-- A byte that the `switch` of `execute` sends to its default case. -/
def Unhandled (b : u8) : Prop :=
  b ≠ INS_LDA_IMMEDIATE ∧ b ≠ INS_LDA_ZP ∧ b ≠ INS_LDA_ZPX ∧ b ≠ INS_JSR_ABSOLUTE

/-- The machine `m` after `k` one-byte, one-cycle instructions. -/
def advance (m : Machine) (k : Nat) : Machine :=
  { m with cpu := { m.cpu with PC := toU16 (m.cpu.PC.val + k) },
           cycles := toU32 (m.cycles.val - k) }

/-- The machine after `n` iterations of the loop body of `execute`, run one after
the other (`none` as soon as one of them hits an out-of-range access). -/
def CPU.stepN : Nat → Machine → Option Machine
  | 0, m => some m
  | n + 1, m => (CPU.step m).bind (CPU.stepN n)

/-- A machine whose program counter is `0xFFFD`, where the opcode `JSR` sits; the
two operand bytes are the cells `0xFFFE` and `0xFFFF`. -/
def wrapMachine : Machine :=
  { cpu := { cpu0 with PC := 0xFFFD }, memory := Memory.zero.store 0xFFFD INS_JSR_ABSOLUTE,
    cycles := toU32 6 }

/-- A machine as `reset` leaves the processor, holding the unmapped byte `0xFF` at
`0xFFFC` followed by `LDA` immediate with operand `0x07`, with a budget of 3. -/
def skipMachine : Machine :=
  { cpu := cpu0,
    memory := ((Memory.zero.store 0xFFFC 0xFF).store 0xFFFD INS_LDA_IMMEDIATE).store
                0xFFFE 0x07,
    cycles := toU32 3 }

/-! ## Basic facts about the embedding -/

theorem MAX_MEMORY_eq : MAX_MEMORY = 65536 := rfl

@[simp] theorem Memory.read_val (m : Memory) (p : Fin 65536) :
    m.read p.val = some (m.Data p) := by
  simp [Memory.read, MAX_MEMORY_eq]

theorem Memory.read_of_lt (m : Memory) (a : Nat) (h : a < 65536) :
    m.read a = some (m.Data ⟨a, h⟩) := by
  simp [Memory.read, MAX_MEMORY_eq, h]

@[simp] theorem Memory.read_u8 (m : Memory) (a : u8) :
    m.read a.val = some (m.Data (zeroPage a)) := by
  simp [Memory.read, MAX_MEMORY_eq, zeroPage, Nat.lt_trans a.isLt (by decide : 256 < 65536)]

theorem fetchByte_eq (m : Machine) :
    CPU.fetchByte m =
      some (m.memory.Data m.cpu.PC,
            { m with cpu := { m.cpu with PC := toU16 (m.cpu.PC.val + 1) },
                     cycles := subCycles m.cycles 1 }) := by
  simp [CPU.fetchByte]

theorem readByte_eq (m : Machine) (a : u8) :
    CPU.readByte m a =
      some (m.memory.Data (zeroPage a), { m with cycles := subCycles m.cycles 1 }) := by
  simp [CPU.readByte]

theorem step_LDA_IMMEDIATE (m : Machine) (h : m.memory.Data m.cpu.PC = INS_LDA_IMMEDIATE) :
    CPU.step m =
      some { cpu := CPU.LDASetStatus
                      { m.cpu with PC := toU16 ((toU16 (m.cpu.PC.val + 1)).val + 1),
                                   Acc := m.memory.Data (toU16 (m.cpu.PC.val + 1)) },
             memory := m.memory,
             cycles := subCycles (subCycles m.cycles 1) 1 } := by
  simp [CPU.step, fetchByte_eq, h]

theorem step_LDA_ZP (m : Machine) (h : m.memory.Data m.cpu.PC = INS_LDA_ZP) :
    CPU.step m =
      some { cpu := CPU.LDASetStatus
                      { m.cpu with
                          PC := toU16 ((toU16 (m.cpu.PC.val + 1)).val + 1),
                          Acc := m.memory.Data (zeroPage (toU8
                            ((m.memory.Data (toU16 (m.cpu.PC.val + 1))).val + m.cpu.X.val))) },
             memory := m.memory,
             cycles := subCycles (subCycles (subCycles (subCycles m.cycles 1) 1) 1) 1 } := by
  simp [CPU.step, fetchByte_eq, readByte_eq, h, INS_LDA_ZP, INS_LDA_IMMEDIATE]

theorem step_LDA_ZPX (m : Machine) (h : m.memory.Data m.cpu.PC = INS_LDA_ZPX) :
    CPU.step m =
      some { cpu := CPU.LDASetStatus
                      { m.cpu with
                          PC := toU16 ((toU16 (m.cpu.PC.val + 1)).val + 1),
                          Acc := m.memory.Data (zeroPage
                            (m.memory.Data (toU16 (m.cpu.PC.val + 1)))) },
             memory := m.memory,
             cycles := subCycles (subCycles (subCycles m.cycles 1) 1) 1 } := by
  simp [CPU.step, fetchByte_eq, readByte_eq, h, INS_LDA_ZPX, INS_LDA_ZP, INS_LDA_IMMEDIATE]

theorem step_unhandled (m : Machine)
    (h1 : m.memory.Data m.cpu.PC ≠ INS_LDA_IMMEDIATE) (h2 : m.memory.Data m.cpu.PC ≠ INS_LDA_ZP)
    (h3 : m.memory.Data m.cpu.PC ≠ INS_LDA_ZPX) (h4 : m.memory.Data m.cpu.PC ≠ INS_JSR_ABSOLUTE) :
    CPU.step m =
      some { m with cpu := { m.cpu with PC := toU16 (m.cpu.PC.val + 1) },
                    cycles := subCycles m.cycles 1 } := by
  simp [CPU.step, fetchByte_eq, h1, h2, h3, h4]

set_option maxRecDepth 100000 in
theorem bit7_eq : ∀ a : u8, decide ((a.val &&& 0b10000000) > 0) = a.val.testBit 7 := by
  decide

/-! ## Load accumulator: the status flags -/

/-- C1. For every machine whose byte at `PC` is an `LDA` opcode (`0xA9`, `0xA5` or
`0xB5`), one instruction succeeds and afterwards the Zero flag equals
`Acc == 0`, the Negative flag equals bit 7 of `Acc`, and the Carry, Interrupt,
Decimal, Break and Overflow flags have their values from before. -/
theorem LDA_sets_Z_N_keeps_other_flags (m : Machine)
    (h : m.memory.read m.cpu.PC.val = some INS_LDA_IMMEDIATE ∨
         m.memory.read m.cpu.PC.val = some INS_LDA_ZP ∨
         m.memory.read m.cpu.PC.val = some INS_LDA_ZPX) :
    ∃ m1, CPU.step m = some m1 ∧
      m1.cpu.PS.Z = decide (m1.cpu.Acc = 0) ∧
      m1.cpu.PS.N = m1.cpu.Acc.val.testBit 7 ∧
      m1.cpu.PS.C = m.cpu.PS.C ∧ m1.cpu.PS.I = m.cpu.PS.I ∧ m1.cpu.PS.D = m.cpu.PS.D ∧
      m1.cpu.PS.B = m.cpu.PS.B ∧ m1.cpu.PS.O = m.cpu.PS.O := by
  simp only [Memory.read_val, Option.some.injEq] at h
  rcases h with h | h | h
  · exact ⟨_, step_LDA_IMMEDIATE m h, by simp [CPU.LDASetStatus, bit7_eq]⟩
  · exact ⟨_, step_LDA_ZP m h, by simp [CPU.LDASetStatus, bit7_eq]⟩
  · exact ⟨_, step_LDA_ZPX m h, by simp [CPU.LDASetStatus, bit7_eq]⟩

/-! ## Reset -/

theorem Memory.ext_Data {a b : Memory} (h : ∀ x, a.Data x = b.Data x) : a = b := by
  cases a; cases b; congr; exact funext h

theorem initializeLambda_zero (i : u8) : Memory.zero.initializeLambda i = Memory.zero := by
  apply Memory.ext_Data; intro x; simp [Memory.initializeLambda, Memory.store, Memory.zero]

theorem initialize_fold_zero (l : List (Fin 65536)) :
    l.foldl (fun acc k => acc.initializeLambda (acc.Data k)) Memory.zero = Memory.zero := by
  induction l with
  | nil => rfl
  | cons k l ih => rw [List.foldl_cons, initializeLambda_zero, ih]

theorem initialize_eq (m : Memory) :
    Memory.initialize m
      = (List.finRange 65536).foldl (fun acc k => acc.initializeLambda (acc.Data k)) m := rfl

theorem initialize_zero : Memory.initialize Memory.zero = Memory.zero := by
  rw [initialize_eq]
  exact initialize_fold_zero _

theorem initialize_fold_high (l : List (Fin 65536)) (m : Memory) (a : Fin 65536)
    (ha : 256 ≤ a.val) :
    (l.foldl (fun acc k => acc.initializeLambda (acc.Data k)) m).Data a = m.Data a := by
  induction l generalizing m with
  | nil => rfl
  | cons k l ih =>
    rw [List.foldl_cons, ih]
    have hne : a ≠ zeroPage (m.Data k) := by
      intro h
      have h1 := congrArg Fin.val h
      have h2 := (m.Data k).isLt
      simp only [zeroPage] at h1
      omega
    simp [Memory.initializeLambda, Memory.store, hne]

/-- The cells from `0x0100` upwards are not touched by `Memory::initialize`. -/
theorem initialize_high (m : Memory) (a : Fin 65536) (ha : 256 ≤ a.val) :
    ( Memory.initialize m).Data a = m.Data a := by
  rw [initialize_eq]
  exact initialize_fold_high _ m a ha

theorem reset_snd (cpu : CPU) (memory : Memory) :
    (CPU.reset cpu memory).2 = Memory.initialize memory := by
  simp only [CPU.reset]

theorem reset_fst (cpu : CPU) (memory : Memory) : (CPU.reset cpu memory).1 = cpu0 := by
  have h1 : toU16 0xFFFC = 0xFFFC := by decide
  have h2 : toU8 0x0100 = 0 := by decide
  simp only [CPU.reset, cpu0, h1, h2]

/-- The scenario "reset, `0xA9` at `0xFFFC`, `0x00` at `0xFFFD`, budget 2", set up
as `main` does, is the machine `immediateMachine`. -/
theorem setup_immediate (cpu : CPU) :
    setup cpu [(0xFFFC, INS_LDA_IMMEDIATE), (0xFFFD, 0x00)] 2 = some immediateMachine := by
  simp only [setup, reset_snd, reset_fst, initialize_zero]
  rfl

/-- C5 (the code at a failing input). A memory image whose cell `0x0300` holds 7
still holds 7 there after `reset`: not every cell is 0 after `reset`. -/
theorem reset_keeps_stale_cell (cpu : CPU) :
    (CPU.reset cpu staleMemory).2.Data 0x0300 = 7 ∧
    ¬ (∀ a : Fin 65536, (CPU.reset cpu staleMemory).2.Data a = 0) := by
  have h : (CPU.reset cpu staleMemory).2.Data 0x0300 = 7 := by
    rw [reset_snd, initialize_high staleMemory 0x0300 (by decide)]
    simp [staleMemory, Memory.store]
  refine ⟨h, fun hall => ?_⟩
  rw [hall] at h
  exact absurd h (by decide)

/-- C6. For every prior processor state and memory, after `reset` the program
counter is `0xFFFC`, `Acc`, `X` and `Y` are 0 and all seven flags are 0. -/
theorem reset_registers_and_flags (cpu : CPU) (memory : Memory) :
    (CPU.reset cpu memory).1.PC.val = 0xFFFC ∧
    (CPU.reset cpu memory).1.Acc.val = 0 ∧
    (CPU.reset cpu memory).1.X.val = 0 ∧
    (CPU.reset cpu memory).1.Y.val = 0 ∧
    (CPU.reset cpu memory).1.PS.C = false ∧ (CPU.reset cpu memory).1.PS.Z = false ∧
    (CPU.reset cpu memory).1.PS.I = false ∧ (CPU.reset cpu memory).1.PS.D = false ∧
    (CPU.reset cpu memory).1.PS.B = false ∧ (CPU.reset cpu memory).1.PS.O = false ∧
    (CPU.reset cpu memory).1.PS.N = false :=
  ⟨rfl, rfl, rfl, rfl, rfl, rfl, rfl, rfl, rfl, rfl, rfl⟩

/-- C7 (the code at every input). After `reset` the 8-bit stack pointer holds
`0x00`, the low byte of `0x0100`, and so not the value `0x0100`. -/
theorem reset_SP_is_zero (cpu : CPU) (memory : Memory) :
    (CPU.reset cpu memory).1.SP.val = 0 ∧ (CPU.reset cpu memory).1.SP.val ≠ 0x0100 :=
  ⟨rfl, Nat.ne_of_lt (CPU.reset cpu memory).1.SP.isLt⟩

/-! ## The execute loop -/

theorem execute_of_cycles_zero (fuel : Nat) (m : Machine) (h : m.cycles.val = 0) :
    CPU.execute fuel m = Outcome.returned m := by
  cases fuel <;> simp [CPU.execute, h]

theorem execute_succ (fuel : Nat) (m m1 : Machine) (hc : 0 < m.cycles.val)
    (hs : CPU.step m = some m1) : CPU.execute (fuel + 1) m = CPU.execute fuel m1 := by
  simp [CPU.execute, hc, hs]

theorem execute_zero_of_pos (m : Machine) (hc : 0 < m.cycles.val) :
    CPU.execute 0 m = Outcome.outOfFuel := by
  simp [CPU.execute, hc]

/-- C1 at the scenario "`0xA9` at `0xFFFC`, `0x00` at `0xFFFD`". -/
theorem LDA_sets_Z_N_keeps_other_flags_witness :
    immediateMachine.memory.read immediateMachine.cpu.PC.val = some INS_LDA_IMMEDIATE ∧
    ∃ m1, CPU.step immediateMachine = some m1 ∧
      m1.cpu.PS.Z = decide (m1.cpu.Acc = 0) ∧
      m1.cpu.PS.N = m1.cpu.Acc.val.testBit 7 ∧
      m1.cpu.PS.C = immediateMachine.cpu.PS.C ∧ m1.cpu.PS.I = immediateMachine.cpu.PS.I ∧
      m1.cpu.PS.D = immediateMachine.cpu.PS.D ∧ m1.cpu.PS.B = immediateMachine.cpu.PS.B ∧
      m1.cpu.PS.O = immediateMachine.cpu.PS.O :=
  ⟨by decide, LDA_sets_Z_N_keeps_other_flags immediateMachine (Or.inl (by decide))⟩

/-! ## Cycle accounting -/

/-- C3 (the code at failing inputs). With the budget set to the documented cost,
`LDA` zero page (`0xA5`, budget 3) and `JSR` (`0x20`, budget 6) each leave
`2^32 - 1` cycles after their one instruction and `LDA` zero page,X (`0xB5`,
budget 4) leaves 1; in all three cases `execute` has not returned after one
instruction. -/
theorem documented_budget_is_not_consumed_exactly :
    (∃ m1, CPU.step (budgetMachine INS_LDA_ZP 3) = some m1 ∧ m1.cycles.val = 4294967295 ∧
        CPU.execute 1 (budgetMachine INS_LDA_ZP 3) = Outcome.outOfFuel) ∧
    (∃ m1, CPU.step (budgetMachine INS_LDA_ZPX 4) = some m1 ∧ m1.cycles.val = 1 ∧
        CPU.execute 1 (budgetMachine INS_LDA_ZPX 4) = Outcome.outOfFuel) ∧
    (∃ m1, CPU.step (budgetMachine INS_JSR_ABSOLUTE 6) = some m1 ∧
        m1.cycles.val = 4294967295 ∧
        CPU.execute 1 (budgetMachine INS_JSR_ABSOLUTE 6) = Outcome.outOfFuel) :=
  ⟨⟨_, rfl, rfl, rfl⟩, ⟨_, rfl, rfl, rfl⟩, ⟨_, rfl, rfl, rfl⟩⟩

/-! ## Load accumulator: addressing -/

/-- C8 (the code at a failing input). With `X = 1`, opcode `0xA5` and operand
`0x42`, where cell `0x42` holds `0x84` and cell `0x43` holds `0x11`, one instruction
leaves `Acc = 0x11`, the byte at `0x42 + X`, not the byte `0x84` at `0x42`. -/
theorem LDA_ZP_adds_X :
    (indexedMachine INS_LDA_ZP).cpu.X = 1 ∧
    (indexedMachine INS_LDA_ZP).memory.read (indexedMachine INS_LDA_ZP).cpu.PC.val
      = some 0xA5 ∧
    (indexedMachine INS_LDA_ZP).memory.read ((indexedMachine INS_LDA_ZP).cpu.PC.val + 1)
      = some 0x42 ∧
    (indexedMachine INS_LDA_ZP).memory.read 0x42 = some 0x84 ∧
    ∃ m1, CPU.step (indexedMachine INS_LDA_ZP) = some m1 ∧ m1.cpu.Acc = 0x11 ∧
      some m1.cpu.Acc ≠ (indexedMachine INS_LDA_ZP).memory.read 0x42 :=
  ⟨rfl, rfl, rfl, rfl, _, rfl, rfl, by decide⟩

/-- C9 (the code at a failing input). With `X = 1`, opcode `0xB5` and operand
`0x42`, where cell `0x42` holds `0x84` and cell `0x43` holds `0x11`, one instruction
leaves `Acc = 0x84`, the byte at `0x42`, not the byte `0x11` at `(0x42 + X) mod 256`. -/
theorem LDA_ZPX_ignores_X :
    (indexedMachine INS_LDA_ZPX).cpu.X = 1 ∧
    (indexedMachine INS_LDA_ZPX).memory.read (indexedMachine INS_LDA_ZPX).cpu.PC.val
      = some 0xB5 ∧
    (indexedMachine INS_LDA_ZPX).memory.read ((indexedMachine INS_LDA_ZPX).cpu.PC.val + 1)
      = some 0x42 ∧
    (indexedMachine INS_LDA_ZPX).memory.read
      ((0x42 + (indexedMachine INS_LDA_ZPX).cpu.X.val) % 256) = some 0x11 ∧
    ∃ m1, CPU.step (indexedMachine INS_LDA_ZPX) = some m1 ∧ m1.cpu.Acc = 0x84 ∧
      some m1.cpu.Acc ≠ (indexedMachine INS_LDA_ZPX).memory.read
        ((0x42 + (indexedMachine INS_LDA_ZPX).cpu.X.val) % 256) :=
  ⟨rfl, rfl, rfl, rfl, _, rfl, rfl, by decide⟩

/-- C10. For every machine whose byte at `PC` is `0xA9` and whose following byte
is `v`, `execute` with a budget of 2 runs exactly one instruction (it has not
returned with fuel 0, and with any fuel from 1 on it returns the state after one
loop iteration), and returns with no cycles left, `Acc = v`,
`Zero = (v == 0)`, `Negative` = bit 7 of `v`, `PC` advanced by 2 modulo `2^16`,
and memory, `SP`, `X` and `Y` unchanged. -/
theorem LDA_IMMEDIATE_budget_two (m : Machine) (v : u8) (fuel : Nat)
    (hop : m.memory.read m.cpu.PC.val = some INS_LDA_IMMEDIATE)
    (hv : m.memory.read ((m.cpu.PC.val + 1) % 65536) = some v) :
    ∃ m1, CPU.step { m with cycles := toU32 2 } = some m1 ∧
      CPU.execute 0 { m with cycles := toU32 2 } = Outcome.outOfFuel ∧
      CPU.execute (fuel + 1) { m with cycles := toU32 2 } = Outcome.returned m1 ∧
      m1.cycles.val = 0 ∧ m1.cpu.Acc = v ∧ m1.cpu.PS.Z = decide (v = 0) ∧
      m1.cpu.PS.N = v.val.testBit 7 ∧
      m1.cpu.PC.val = (m.cpu.PC.val + 2) % 65536 ∧
      m1.memory = m.memory ∧ m1.cpu.SP = m.cpu.SP ∧ m1.cpu.X = m.cpu.X ∧
      m1.cpu.Y = m.cpu.Y := by
  have hop1 : m.memory.Data m.cpu.PC = INS_LDA_IMMEDIATE := by
    rw [Memory.read_val] at hop
    exact Option.some.inj hop
  have hv1 : m.memory.Data (toU16 (m.cpu.PC.val + 1)) = v := by
    rw [show (m.cpu.PC.val + 1) % 65536 = (toU16 (m.cpu.PC.val + 1)).val from rfl,
      Memory.read_val] at hv
    exact Option.some.inj hv
  have hstep := step_LDA_IMMEDIATE { m with cycles := toU32 2 } hop1
  have hzero : (subCycles (subCycles (toU32 2) 1) 1).val = 0 := by
    simp [subCycles, toU32]
  have hpos : 0 < (toU32 2).val := by decide
  refine ⟨_, hstep, execute_zero_of_pos _ hpos, ?_, hzero, ?_, ?_, ?_, ?_, rfl, rfl, rfl, rfl⟩
  · rw [execute_succ fuel _ _ hpos hstep]
    exact execute_of_cycles_zero _ _ hzero
  · simp [CPU.LDASetStatus, hv1]
  · simp [CPU.LDASetStatus, hv1]
  · simp [CPU.LDASetStatus, hv1, bit7_eq]
  · simp only [CPU.LDASetStatus, toU16]
    omega

/-- C10 at the scenario "reset, `0xA9` at `0xFFFC`, `0x00` at `0xFFFD`, budget 2":
`execute` returns with `Acc = 0`, `Zero` set and `Negative` clear. -/
theorem LDA_IMMEDIATE_budget_two_witness :
    immediateMachine.memory.read immediateMachine.cpu.PC.val = some INS_LDA_IMMEDIATE ∧
    immediateMachine.memory.read ((immediateMachine.cpu.PC.val + 1) % 65536) = some 0 ∧
    ∃ m1, CPU.step { immediateMachine with cycles := toU32 2 } = some m1 ∧
      CPU.execute 0 { immediateMachine with cycles := toU32 2 } = Outcome.outOfFuel ∧
      CPU.execute (0 + 1) { immediateMachine with cycles := toU32 2 } = Outcome.returned m1 ∧
      m1.cycles.val = 0 ∧ m1.cpu.Acc = 0 ∧ m1.cpu.PS.Z = decide ((0 : u8) = 0) ∧
      m1.cpu.PS.N = (0 : u8).val.testBit 7 ∧
      m1.cpu.PC.val = (immediateMachine.cpu.PC.val + 2) % 65536 ∧
      m1.memory = immediateMachine.memory ∧ m1.cpu.SP = immediateMachine.cpu.SP ∧
      m1.cpu.X = immediateMachine.cpu.X ∧ m1.cpu.Y = immediateMachine.cpu.Y :=
  ⟨by decide, by decide,
   LDA_IMMEDIATE_budget_two immediateMachine 0 0 (by decide) (by decide)⟩

/-! ## Termination of `execute` -/

theorem execute_spin (fuel : Nat) : ∀ m : Machine, m.memory = immediateEverywhere →
    m.cycles.val % 2 = 1 → CPU.execute fuel m = Outcome.outOfFuel := by
  induction fuel with
  | zero =>
    intro m _ hodd
    exact execute_zero_of_pos m (by omega)
  | succ fuel ih =>
    intro m hmem hodd
    have hop : m.memory.Data m.cpu.PC = INS_LDA_IMMEDIATE := by rw [hmem]; rfl
    rw [execute_succ fuel m _ (by omega) (step_LDA_IMMEDIATE m hop)]
    apply ih
    · exact hmem
    · have hlt := m.cycles.isLt
      simp only [subCycles, toU32]
      omega

/-- C4 (the code at a failing input). With the memory filled with opcode `0xA9`
and a budget of 1, `execute` has not returned after any number of loop
iterations: each instruction charges 2, the `u32` counter wraps from 1 to
`2^32 - 1` and stays odd, so it is never 0. -/
theorem execute_does_not_terminate (cpu : CPU) (fuel : Nat) :
    CPU.execute fuel (spinMachine cpu) = Outcome.outOfFuel :=
  execute_spin fuel (spinMachine cpu) rfl (show (toU32 1).val % 2 = 1 by decide)

/-! ## Runs of one-byte instructions -/

theorem advance_zero (m : Machine) : advance m 0 = m := by
  obtain ⟨⟨pc, sp, acc, x, y, ps⟩, mem, cyc⟩ := m
  have h1 : toU16 (pc.val + 0) = pc := Fin.ext (Nat.mod_eq_of_lt pc.isLt)
  have h2 : toU32 (cyc.val - 0) = cyc := Fin.ext (Nat.mod_eq_of_lt cyc.isLt)
  simp only [advance, h1, h2]

theorem advance_advance (m : Machine) (a b : Nat) :
    advance (advance m a) b = advance m (a + b) := by
  have h1 : toU16 ((toU16 (m.cpu.PC.val + a)).val + b) = toU16 (m.cpu.PC.val + (a + b)) := by
    apply Fin.ext
    simp only [toU16]
    omega
  have h2 : toU32 ((toU32 (m.cycles.val - a)).val - b) = toU32 (m.cycles.val - (a + b)) := by
    have hlt := m.cycles.isLt
    apply Fin.ext
    simp only [toU32]
    omega
  simp only [advance, h1, h2]

theorem step_advance (m : Machine) (hu : Unhandled (m.memory.Data m.cpu.PC))
    (hc : 0 < m.cycles.val) : CPU.step m = some (advance m 1) := by
  have h : subCycles m.cycles 1 = toU32 (m.cycles.val - 1) := by
    apply Fin.ext
    simp only [subCycles, toU32]
    omega
  rw [step_unhandled m hu.1 hu.2.1 hu.2.2.1 hu.2.2.2, h]
  rfl

theorem execute_skip (k : Nat) : ∀ (fuel : Nat) (m : Machine),
    (∀ j, j < k → Unhandled (m.memory.Data (toU16 (m.cpu.PC.val + j)))) →
    k ≤ m.cycles.val → CPU.execute (fuel + k) m = CPU.execute fuel (advance m k) := by
  induction k with
  | zero =>
    intro fuel m _ _
    rw [advance_zero, Nat.add_zero]
  | succ k ih =>
    intro fuel m hu hc
    have hlt := m.cycles.isLt
    have h0 : Unhandled (m.memory.Data m.cpu.PC) := by
      have := hu 0 (Nat.succ_pos k)
      rwa [show toU16 (m.cpu.PC.val + 0) = m.cpu.PC from
        Fin.ext (Nat.mod_eq_of_lt m.cpu.PC.isLt)] at this
    rw [show fuel + (k + 1) = (fuel + k) + 1 from rfl,
      execute_succ (fuel + k) m _ (by omega) (step_advance m h0 (by omega)),
      ih fuel (advance m 1), advance_advance, Nat.add_comm 1 k]
    · intro j hj
      have := hu (j + 1) (by omega)
      have e : toU16 ((advance m 1).cpu.PC.val + j) = toU16 (m.cpu.PC.val + (j + 1)) := by
        apply Fin.ext
        simp only [advance, toU16]
        omega
      rw [e]
      exact this
    · simp only [advance, toU32]
      omega

theorem execute_returned_mono (fuel : Nat) : ∀ (m mf : Machine) (extra : Nat),
    CPU.execute fuel m = Outcome.returned mf →
    CPU.execute (fuel + extra) m = Outcome.returned mf := by
  induction fuel with
  | zero =>
    intro m mf extra h
    by_cases hc : 0 < m.cycles.val
    · simp [CPU.execute, hc] at h
    · have hz : m.cycles.val = 0 := by omega
      rw [execute_of_cycles_zero _ _ hz] at h
      rw [execute_of_cycles_zero _ _ hz]
      exact h
  | succ fuel ih =>
    intro m mf extra h
    by_cases hc : 0 < m.cycles.val
    · cases hs : CPU.step m with
      | none => simp [CPU.execute, hc, hs] at h
      | some m1 =>
        rw [execute_succ fuel m m1 hc hs] at h
        rw [show fuel + 1 + extra = (fuel + extra) + 1 by omega,
          execute_succ (fuel + extra) m m1 hc hs]
        exact ih m1 mf extra h
    · have hz : m.cycles.val = 0 := by omega
      rw [execute_of_cycles_zero _ _ hz] at h
      rw [execute_of_cycles_zero _ _ hz]
      exact h

/-- What `execute` returns does not depend on the fuel. -/
theorem execute_returned_unique (m m1 m2 : Machine) (f1 f2 : Nat)
    (h1 : CPU.execute f1 m = Outcome.returned m1)
    (h2 : CPU.execute f2 m = Outcome.returned m2) : m1 = m2 := by
  have e1 := execute_returned_mono f1 m m1 f2 h1
  have e2 := execute_returned_mono f2 m m2 f1 h2
  rw [Nat.add_comm f2 f1, e1] at e2
  exact Outcome.returned.inj e2

/-! ## The run of `main` -/

theorem unhandled_zero : Unhandled 0 := by
  unfold Unhandled; decide

theorem unhandled_0x84 : Unhandled 0x84 := by
  unfold Unhandled; decide

theorem mainMemory_unhandled (a : Fin 65536) (h1 : a.val ≠ 0xFFFC) (h2 : a.val ≠ 0xFFFD) :
    Unhandled (mainMemory.Data a) := by
  have e1 : a ≠ 0xFFFC := fun h => h1 (by rw [h]; rfl)
  have e2 : a ≠ 0xFFFD := fun h => h2 (by rw [h]; rfl)
  simp only [mainMemory, Memory.store, Memory.zero]
  split
  · exact unhandled_0x84
  · exact unhandled_zero

theorem advance_mainState (pc : u16) (c k : Nat) (hlt : c < 4294967296) :
    advance (mainState pc c) k = mainState (toU16 (pc.val + k)) (c - k) := by
  have h : toU32 ((toU32 c).val - k) = toU32 (c - k) := by
    apply Fin.ext
    simp only [toU32]
    omega
  simp only [advance, mainState, h]

theorem mainState_skip (pc : u16) (c fuel k : Nat)
    (hpc : ∀ j, j < k → (pc.val + j) % 65536 ≠ 0xFFFC ∧ (pc.val + j) % 65536 ≠ 0xFFFD)
    (hc : k ≤ c) (hlt : c < 4294967296) :
    CPU.execute (fuel + k) (mainState pc c)
      = CPU.execute fuel (mainState (toU16 (pc.val + k)) (c - k)) := by
  rw [← advance_mainState pc c k hlt]
  apply execute_skip k fuel (mainState pc c)
  · intro j hj
    exact mainMemory_unhandled _ (hpc j hj).1 (hpc j hj).2
  · simp only [mainState, toU32]
    omega

theorem mainState_LDA (c : Nat) (hc : 4 ≤ c) (hlt : c < 4294967296) :
    CPU.step (mainState 0xFFFC c) = some (mainState 0xFFFE (c - 4)) := by
  have hop : (mainState 0xFFFC c).memory.Data (mainState 0xFFFC c).cpu.PC = INS_LDA_ZP := by
    simp only [mainState]
    decide
  have h1 : toU16 ((toU16 ((0xFFFC : u16).val + 1)).val + 1) = 0xFFFE := by decide
  have h2 : mainMemory.Data (zeroPage (toU8
      ((mainMemory.Data (toU16 ((0xFFFC : u16).val + 1))).val + (0 : u8).val))) = 0x84 := by
    decide
  have h3 : subCycles (subCycles (subCycles (subCycles (toU32 c) 1) 1) 1) 1 = toU32 (c - 4) := by
    apply Fin.ext
    simp only [subCycles, toU32]
    omega
  rw [step_LDA_ZP _ hop]
  simp only [mainState, h1, h2, h3]
  simp [CPU.LDASetStatus]
  decide

theorem mainState_lap (c fuel : Nat) (hc : 65538 ≤ c) (hlt : c < 4294967296) :
    CPU.execute (fuel + 65535) (mainState 0xFFFE c)
      = CPU.execute fuel (mainState 0xFFFE (c - 65538)) := by
  have hv : (0xFFFE : u16).val = 65534 := rfl
  have hpc : toU16 ((0xFFFE : u16).val + 65534) = 0xFFFC := by decide
  have hpos : 0 < (mainState 0xFFFC (c - 65534)).cycles.val := by
    simp only [mainState, toU32]
    omega
  rw [show fuel + 65535 = (fuel + 1) + 65534 by omega,
    mainState_skip 0xFFFE c (fuel + 1) 65534 (fun j hj => by rw [hv]; omega) (by omega) hlt,
    hpc, execute_succ fuel _ _ hpos (mainState_LDA (c - 65534) (by omega) (by omega)),
    show c - 65534 - 4 = c - 65538 by omega]

theorem mainState_laps (n : Nat) : ∀ (c fuel : Nat), 65538 * n ≤ c → c < 4294967296 →
    CPU.execute (fuel + 65535 * n) (mainState 0xFFFE c)
      = CPU.execute fuel (mainState 0xFFFE (c - 65538 * n)) := by
  induction n with
  | zero =>
    intro c fuel _ _
    rfl
  | succ n ih =>
    intro c fuel hc hlt
    rw [show fuel + 65535 * (n + 1) = (fuel + 65535 * n) + 65535 by omega,
      mainState_lap c _ (by omega) hlt, ih (c - 65538) fuel (by omega) (by omega),
      show c - 65538 - 65538 * n = c - 65538 * (n + 1) by omega]

theorem mainMachine_eq (cpu : CPU) :
    mainMachine cpu
      = some { cpu := (CPU.reset cpu Memory.zero).1, memory := mainMemory, cycles := toU32 3 } := by
  simp only [mainMachine, setup, reset_snd, initialize_zero]
  rfl

theorem mainMachine_first_step (cpu : CPU) :
    CPU.step { cpu := (CPU.reset cpu Memory.zero).1, memory := mainMemory, cycles := toU32 3 }
      = some (mainState 0xFFFE 4294967295) := by
  have h1 : toU16 ((toU16 ((toU16 0xFFFC).val + 1)).val + 1) = 0xFFFE := by decide
  have h2 : mainMemory.Data (zeroPage (toU8
      ((mainMemory.Data (toU16 ((toU16 0xFFFC).val + 1))).val + (0 : u8).val))) = 0x84 := by
    decide
  have h3 : subCycles (subCycles (subCycles (subCycles (toU32 3) 1) 1) 1) 1
      = toU32 4294967295 := by decide
  have h4 : toU8 0x0100 = 0 := by decide
  rw [step_LDA_ZP _ rfl]
  simp only [CPU.reset, mainState, h1, h2, h3, h4]
  simp [CPU.LDASetStatus]
  decide

theorem mainState_tail :
    CPU.execute 3 (mainState 0xFFFE 3) = Outcome.returned (mainState 0x0001 0) := by
  have hv : (0xFFFE : u16).val = 65534 := rfl
  have hpc : toU16 ((0xFFFE : u16).val + 3) = 0x0001 := by decide
  rw [show (3 : Nat) = 0 + 3 from rfl,
    mainState_skip 0xFFFE (0 + 3) 0 3 (fun j hj => by rw [hv]; omega) (by omega) (by omega), hpc]
  exact execute_of_cycles_zero _ _ rfl

theorem main_run (cpu : CPU) :
    CPU.execute 4294770694
        { cpu := (CPU.reset cpu Memory.zero).1, memory := mainMemory, cycles := toU32 3 }
      = Outcome.returned (mainState 0x0001 0) := by
  have hpos : 0 < (toU32 3).val := by decide
  rw [show (4294770694 : Nat) = (3 + 65535 * 65534) + 1 by norm_num,
    execute_succ _ _ _ hpos (mainMachine_first_step cpu),
    mainState_laps 65534 4294967295 3 (by norm_num) (by norm_num),
    show 4294967295 - 65538 * 65534 = 3 by norm_num]
  exact mainState_tail

/-- C2 (the code at the failing input, the scenario of `main`). After `reset`
and the three pokes, `execute` with budget 3 does return, and whatever fuel it is
given the machine it returns has `Acc = 0x84`, `Zero = 0`, `Negative = 1` and
`PC = 0x0001`, not `0xFFFE`: the first instruction charges 4 cycles, the `u32`
counter wraps to `2^32 - 1`, and the loop runs on until the counter reaches 0. -/
theorem main_returns_with_PC_one (cpu : CPU) :
    ∃ m0 mf, mainMachine cpu = some m0 ∧ m0.cycles.val = 3 ∧
      CPU.execute 4294770694 m0 = Outcome.returned mf ∧
      (∀ fuel m1, CPU.execute fuel m0 = Outcome.returned m1 → m1 = mf) ∧
      mf.cpu.Acc = 0x84 ∧ mf.cpu.PS.Z = false ∧ mf.cpu.PS.N = true ∧
      mf.cpu.PC.val = 0x0001 ∧ mf.cpu.PC.val ≠ 0xFFFE :=
  ⟨_, mainState 0x0001 0, mainMachine_eq cpu, rfl, main_run cpu,
    fun _ _ h => execute_returned_unique _ _ _ _ _ h (main_run cpu),
    rfl, rfl, rfl, rfl, by decide⟩

/-! ## Memory accessors -/

/-- C14. Writing `v` through the accessor at an address `a < 65536` and reading `a`
back gives `v`, and every other address reads as before; at an address
`a ≥ 65536` the read accessor and the write accessor both fail. -/
theorem write_then_read_and_bounds (m : Memory) (a : Nat) (v : u8) :
    (a < 65536 → ∃ m1, m.write a v = some m1 ∧ m1.read a = some v ∧
        ∀ b, b ≠ a → m1.read b = m.read b) ∧
    (65536 ≤ a → m.read a = none ∧ m.write a v = none) := by
  constructor
  · intro ha
    refine ⟨m.store ⟨a, ha⟩ v, ?_, ?_, ?_⟩
    · simp [Memory.write, MAX_MEMORY_eq, ha]
    · simp [Memory.read, Memory.store, MAX_MEMORY_eq, ha]
    · intro b hb
      by_cases hlt : b < 65536
      · have hne : (⟨b, hlt⟩ : Fin 65536) ≠ ⟨a, ha⟩ := fun h => hb (congrArg Fin.val h)
        simp [Memory.read, Memory.store, MAX_MEMORY_eq, hlt, hne]
      · simp [Memory.read, MAX_MEMORY_eq, hlt]
  · intro ha
    have hn : ¬ a < 65536 := by omega
    simp [Memory.read, Memory.write, MAX_MEMORY_eq, hn]

/-- C14 at the addresses 5 and 70000 of the zeroed memory. -/
theorem write_then_read_and_bounds_witness :
    (∃ m1, Memory.zero.write 5 0x84 = some m1 ∧ m1.read 5 = some 0x84 ∧
        ∀ b, b ≠ 5 → m1.read b = Memory.zero.read b) ∧
    (Memory.zero.read 70000 = none ∧ Memory.zero.write 70000 0x84 = none) :=
  ⟨(write_then_read_and_bounds Memory.zero 5 0x84).1 (by decide),
   (write_then_read_and_bounds Memory.zero 70000 0x84).2 (by decide)⟩

theorem and_0xff (n : Nat) : n &&& 0xff = n % 256 :=
  Nat.and_pow_two_sub_one_eq_mod n 8

theorem shiftRight_8 (n : Nat) : n >>> 8 = n / 256 :=
  Nat.shiftRight_eq_div_pow n 8

theorem lor_shiftLeft_8 (lo hi : Nat) (h : lo < 256) : lo ||| (hi <<< 8) = lo + 256 * hi := by
  rw [Nat.shiftLeft_eq, Nat.lor_comm, Nat.mul_comm hi (2 ^ 8),
    ← Nat.mul_add_lt_is_or (show lo < 2 ^ 8 from h) hi]
  omega

theorem subCycles_val (c : u32) (k : Nat) (h : k ≤ c.val) : (subCycles c k).val = c.val - k := by
  have hlt := c.isLt
  simp only [subCycles, toU32]
  omega

/-- C15. For every 16-bit value `v`, every address `a` with `a + 1 < 65536` and
every cycle counter `c ≥ 2`, `writeBytes` succeeds; afterwards the cell at `a`
holds `v mod 256`, the cell at `a + 1` holds `v div 256`, every other address reads
as before, and the cycle counter is `c - 2`. -/
theorem writeBytes_little_endian (m : Memory) (c : u32) (v : u16) (a : u32)
    (ha : a.val + 1 < 65536) (hc : 2 ≤ c.val) :
    ∃ m1 c1 lo hi, m.writeBytes c v a = some (m1, c1) ∧
      m1.read a.val = some lo ∧ lo.val = v.val % 256 ∧
      m1.read (a.val + 1) = some hi ∧ hi.val = v.val / 256 ∧
      (∀ b, b ≠ a.val → b ≠ a.val + 1 → m1.read b = m.read b) ∧
      c1.val = c.val - 2 := by
  have hv := v.isLt
  have h1 : a.val < MAX_MEMORY := by rw [MAX_MEMORY_eq]; omega
  have e : (toU32 (a.val + 1)).val = a.val + 1 := by
    simp only [toU32]
    omega
  have h2 : (toU32 (a.val + 1)).val < MAX_MEMORY := by rw [MAX_MEMORY_eq, e]; exact ha
  have hw : m.writeBytes c v a
      = some (((m.store ⟨a.val, h1⟩ (toU8 (v.val &&& 0xff))).store
                ⟨(toU32 (a.val + 1)).val, h2⟩ (toU8 (v.val >>> 8))), subCycles c 2) := by
    simp only [Memory.writeBytes, h1, h2, dite_true]
  have hne : (⟨a.val, h1⟩ : Fin 65536) ≠ ⟨(toU32 (a.val + 1)).val, h2⟩ := by
    intro h
    have := congrArg Fin.val h
    simp only [e] at this
    omega
  refine ⟨_, _, toU8 (v.val &&& 0xff), toU8 (v.val >>> 8), hw, ?_, ?_, ?_, ?_, ?_,
    subCycles_val c 2 hc⟩
  · rw [Memory.read_of_lt _ _ h1]
    simp [Memory.store, hne]
  · simp only [toU8, and_0xff]
    omega
  · rw [Memory.read_of_lt _ _ ha]
    simp [Memory.store, e]
  · simp only [toU8, shiftRight_8]
    omega
  · intro b hb1 hb2
    by_cases hlt : b < 65536
    · have n1 : (⟨b, hlt⟩ : Fin 65536) ≠ ⟨a.val, h1⟩ := fun h => hb1 (congrArg Fin.val h)
      have n2 : (⟨b, hlt⟩ : Fin 65536) ≠ ⟨(toU32 (a.val + 1)).val, h2⟩ := by
        intro h
        have := congrArg Fin.val h
        simp only [e] at this
        exact hb2 this
      simp [Memory.read, Memory.store, MAX_MEMORY_eq, hlt, n1, n2]
    · simp [Memory.read, MAX_MEMORY_eq, hlt]

/-- C15 at the value `0x1234`, the address `0x0200` and the counter 6 on the zeroed
memory. -/
theorem writeBytes_little_endian_witness :
    ∃ m1 c1 lo hi, Memory.zero.writeBytes (toU32 6) (toU16 0x1234) (toU32 0x0200)
        = some (m1, c1) ∧
      m1.read (toU32 0x0200).val = some lo ∧ lo.val = (toU16 0x1234).val % 256 ∧
      m1.read ((toU32 0x0200).val + 1) = some hi ∧ hi.val = (toU16 0x1234).val / 256 ∧
      (∀ b, b ≠ (toU32 0x0200).val → b ≠ (toU32 0x0200).val + 1 →
        m1.read b = Memory.zero.read b) ∧
      c1.val = (toU32 6).val - 2 :=
  writeBytes_little_endian Memory.zero (toU32 6) (toU16 0x1234) (toU32 0x0200)
    (by decide) (by decide)

/-! ## Fetch and addressing -/

theorem fetchAbsoluteAddressing_eq (m : Machine) :
    CPU.fetchAbsoluteAddressing m =
      some (toU16 ((m.memory.Data m.cpu.PC).val
              ||| ((m.memory.Data (toU16 (m.cpu.PC.val + 1))).val <<< 8)),
            { m with cpu := { m.cpu with PC := toU16 ((toU16 (m.cpu.PC.val + 1)).val + 1) },
                     cycles := subCycles m.cycles 2 }) := by
  simp [CPU.fetchAbsoluteAddressing]

theorem read_next (mem : Memory) (pc : u16) :
    mem.read ((pc.val + 1) % 65536) = some (mem.Data (toU16 (pc.val + 1))) := by
  rw [show (pc.val + 1) % 65536 = (toU16 (pc.val + 1)).val from rfl, Memory.read_val]

/-- C16. For every machine with cycle counter `c ≥ 2`, `fetchAbsoluteAddressing`
succeeds; its result is `mem[PC] + 256 * mem[(PC + 1) mod 2^16]`, `PC` is advanced
by 2 modulo `2^16`, the cycle counter is `c - 2`, and the memory, `SP`, `Acc`, `X`,
`Y` and the flags are unchanged. -/
theorem fetchAbsoluteAddressing_little_endian (m : Machine) (hc : 2 ≤ m.cycles.val) :
    ∃ lo hi r m1, m.memory.read m.cpu.PC.val = some lo ∧
      m.memory.read ((m.cpu.PC.val + 1) % 65536) = some hi ∧
      CPU.fetchAbsoluteAddressing m = some (r, m1) ∧
      r.val = lo.val + 256 * hi.val ∧
      m1.cpu.PC.val = (m.cpu.PC.val + 2) % 65536 ∧
      m1.cycles.val = m.cycles.val - 2 ∧
      m1.memory = m.memory ∧ m1.cpu.SP = m.cpu.SP ∧ m1.cpu.Acc = m.cpu.Acc ∧
      m1.cpu.X = m.cpu.X ∧ m1.cpu.Y = m.cpu.Y ∧ m1.cpu.PS = m.cpu.PS := by
  refine ⟨_, _, _, _, Memory.read_val _ _, read_next _ _, fetchAbsoluteAddressing_eq m, ?_, ?_,
    subCycles_val _ 2 hc, rfl, rfl, rfl, rfl, rfl, rfl⟩
  · have h1 := (m.memory.Data m.cpu.PC).isLt
    have h2 := (m.memory.Data (toU16 (m.cpu.PC.val + 1))).isLt
    simp only [toU16, lor_shiftLeft_8 _ _ h1]
    omega
  · simp only [toU16]
    omega

/-- C16 at the machine of the `JSR` scenario (operand bytes `0x42`, `0x80`). -/
theorem fetchAbsoluteAddressing_little_endian_witness :
    ∃ lo hi r m1,
      (advance (budgetMachine INS_JSR_ABSOLUTE 6) 1).memory.read
        (advance (budgetMachine INS_JSR_ABSOLUTE 6) 1).cpu.PC.val = some lo ∧
      (advance (budgetMachine INS_JSR_ABSOLUTE 6) 1).memory.read
        (((advance (budgetMachine INS_JSR_ABSOLUTE 6) 1).cpu.PC.val + 1) % 65536) = some hi ∧
      CPU.fetchAbsoluteAddressing (advance (budgetMachine INS_JSR_ABSOLUTE 6) 1)
        = some (r, m1) ∧
      r.val = lo.val + 256 * hi.val ∧
      m1.cpu.PC.val = ((advance (budgetMachine INS_JSR_ABSOLUTE 6) 1).cpu.PC.val + 2) % 65536 ∧
      m1.cycles.val = (advance (budgetMachine INS_JSR_ABSOLUTE 6) 1).cycles.val - 2 ∧
      m1.memory = (advance (budgetMachine INS_JSR_ABSOLUTE 6) 1).memory ∧
      m1.cpu.SP = (advance (budgetMachine INS_JSR_ABSOLUTE 6) 1).cpu.SP ∧
      m1.cpu.Acc = (advance (budgetMachine INS_JSR_ABSOLUTE 6) 1).cpu.Acc ∧
      m1.cpu.X = (advance (budgetMachine INS_JSR_ABSOLUTE 6) 1).cpu.X ∧
      m1.cpu.Y = (advance (budgetMachine INS_JSR_ABSOLUTE 6) 1).cpu.Y ∧
      m1.cpu.PS = (advance (budgetMachine INS_JSR_ABSOLUTE 6) 1).cpu.PS :=
  fetchAbsoluteAddressing_little_endian (advance (budgetMachine INS_JSR_ABSOLUTE 6) 1)
    (by decide)

/-- C17. For every machine with cycle counter `c ≥ 1`, `fetchByte` succeeds; its
result is the memory byte at `PC`, `PC` is advanced by 1 modulo `2^16`, the cycle
counter is `c - 1`, and the memory and every other register and flag are unchanged.
`readByte` at an 8-bit address succeeds, returns the byte at that address, leaves
the cycle counter at `c - 1` and changes neither `PC` nor anything else. -/
theorem fetchByte_readByte_frame (m : Machine) (address : u8) (hc : 1 ≤ m.cycles.val) :
    (∃ b m1, m.memory.read m.cpu.PC.val = some b ∧ CPU.fetchByte m = some (b, m1) ∧
      m1.cpu.PC.val = (m.cpu.PC.val + 1) % 65536 ∧
      m1.cycles.val = m.cycles.val - 1 ∧
      m1.memory = m.memory ∧ m1.cpu.SP = m.cpu.SP ∧ m1.cpu.Acc = m.cpu.Acc ∧
      m1.cpu.X = m.cpu.X ∧ m1.cpu.Y = m.cpu.Y ∧ m1.cpu.PS = m.cpu.PS) ∧
    (∃ b m1, m.memory.read address.val = some b ∧ CPU.readByte m address = some (b, m1) ∧
      m1.cycles.val = m.cycles.val - 1 ∧ m1.cpu = m.cpu ∧ m1.memory = m.memory) :=
  ⟨⟨_, _, Memory.read_val _ _, fetchByte_eq m, rfl, subCycles_val _ 1 hc, rfl, rfl, rfl, rfl,
      rfl, rfl⟩,
   ⟨_, _, Memory.read_u8 _ _, readByte_eq m address, subCycles_val _ 1 hc, rfl, rfl⟩⟩

/-- C17 at the machine of `main` (`PC = 0xFFFC`, budget 3) and the address `0x42`;
the last part shows the wrap of the program counter from `0xFFFF` to `0x0000`. -/
theorem fetchByte_readByte_frame_witness :
    ((∃ b m1, (budgetMachine INS_LDA_ZP 3).memory.read (budgetMachine INS_LDA_ZP 3).cpu.PC.val
        = some b ∧
      CPU.fetchByte (budgetMachine INS_LDA_ZP 3) = some (b, m1) ∧
      m1.cpu.PC.val = ((budgetMachine INS_LDA_ZP 3).cpu.PC.val + 1) % 65536 ∧
      m1.cycles.val = (budgetMachine INS_LDA_ZP 3).cycles.val - 1 ∧
      m1.memory = (budgetMachine INS_LDA_ZP 3).memory ∧
      m1.cpu.SP = (budgetMachine INS_LDA_ZP 3).cpu.SP ∧
      m1.cpu.Acc = (budgetMachine INS_LDA_ZP 3).cpu.Acc ∧
      m1.cpu.X = (budgetMachine INS_LDA_ZP 3).cpu.X ∧
      m1.cpu.Y = (budgetMachine INS_LDA_ZP 3).cpu.Y ∧
      m1.cpu.PS = (budgetMachine INS_LDA_ZP 3).cpu.PS) ∧
    (∃ b m1, (budgetMachine INS_LDA_ZP 3).memory.read (0x42 : u8).val = some b ∧
      CPU.readByte (budgetMachine INS_LDA_ZP 3) 0x42 = some (b, m1) ∧
      m1.cycles.val = (budgetMachine INS_LDA_ZP 3).cycles.val - 1 ∧
      m1.cpu = (budgetMachine INS_LDA_ZP 3).cpu ∧
      m1.memory = (budgetMachine INS_LDA_ZP 3).memory)) ∧
    (∃ b m1, CPU.fetchByte (advance (budgetMachine INS_LDA_ZP 4) 3) = some (b, m1) ∧
      (advance (budgetMachine INS_LDA_ZP 4) 3).cpu.PC.val = 0xFFFF ∧ m1.cpu.PC.val = 0) :=
  ⟨fetchByte_readByte_frame (budgetMachine INS_LDA_ZP 3) 0x42 (by decide),
   _, _, fetchByte_eq _, rfl, rfl⟩

/-! ## Jump to subroutine -/

theorem write_u8 (mem : Memory) (sp v : u8) :
    mem.write sp.val v = some (mem.store (zeroPage sp) v) := by
  simp [Memory.write, MAX_MEMORY_eq, zeroPage, Nat.lt_trans sp.isLt (by decide : 256 < 65536)]

theorem writeBytes_of_lt (m : Memory) (c : u32) (v : u16) (a : u32) (ha : a.val + 1 < 65536) :
    m.writeBytes c v a
      = some ((m.store ⟨a.val, Nat.lt_of_succ_lt ha⟩ (toU8 (v.val &&& 0xff))).store
                ⟨a.val + 1, ha⟩ (toU8 (v.val >>> 8)), subCycles c 2) := by
  have h1 : a.val < MAX_MEMORY := by rw [MAX_MEMORY_eq]; omega
  have e : (toU32 (a.val + 1)).val = a.val + 1 := by
    simp only [toU32]
    omega
  have h2 : a.val + 1 < MAX_MEMORY := by rw [MAX_MEMORY_eq]; exact ha
  simp only [Memory.writeBytes, h1, e, h2, dite_true]

theorem writeBytes_of_ge (m : Memory) (c : u32) (v : u16) (a : u32) (ha : 65536 ≤ a.val) :
    m.writeBytes c v a = none := by
  have h1 : ¬ a.val < MAX_MEMORY := by rw [MAX_MEMORY_eq]; omega
  simp only [Memory.writeBytes, h1, dite_false]

/-- The `JSR` case of the loop body: it fails exactly when `writeBytes` does. -/
theorem step_JSR (m : Machine) (h : m.memory.Data m.cpu.PC = INS_JSR_ABSOLUTE) :
    CPU.step m =
      (m.memory.writeBytes (subCycles (subCycles m.cycles 1) 2) (toU16 m.cpu.SP.val)
          (intToU32 (((toU16 ((toU16 ((toU16 (m.cpu.PC.val + 1)).val + 1)).val + 1)).val : Int)
            - 1))).map
        (fun r =>
          { cpu := { m.cpu with
                PC := toU16 ((m.memory.Data (toU16 (m.cpu.PC.val + 1))).val |||
                  ((m.memory.Data (toU16 ((toU16 (m.cpu.PC.val + 1)).val + 1))).val <<< 8)),
                SP := toU8 (m.cpu.SP.val + 1) },
            memory := r.1.store (zeroPage m.cpu.SP)
              (intToU8 (((toU16 ((toU16 ((toU16 (m.cpu.PC.val + 1)).val + 1)).val + 1)).val : Int)
                - 1)),
            cycles := subCycles (subCycles r.2 1) 1 }) := by
  cases hw : m.memory.writeBytes (subCycles (subCycles m.cycles 1) 2) (toU16 m.cpu.SP.val)
      (intToU32 (((toU16 ((toU16 ((toU16 (m.cpu.PC.val + 1)).val + 1)).val + 1)).val : Int) - 1))
    with
  | none =>
    simp [CPU.step, fetchByte_eq, fetchAbsoluteAddressing_eq, h, INS_JSR_ABSOLUTE, INS_LDA_ZPX,
      INS_LDA_ZP, INS_LDA_IMMEDIATE, hw]
  | some r =>
    obtain ⟨mem, cyc⟩ := r
    simp [CPU.step, fetchByte_eq, fetchAbsoluteAddressing_eq, h, INS_JSR_ABSOLUTE, INS_LDA_ZPX,
      INS_LDA_ZP, INS_LDA_IMMEDIATE, hw, write_u8]

theorem pc3_val (pc : u16) :
    (toU16 ((toU16 ((toU16 (pc.val + 1)).val + 1)).val + 1)).val = (pc.val + 3) % 65536 := by
  simp only [toU16]
  omega

theorem intToU32_pred (n : Nat) (h0 : 0 < n) (hn : n < 65536) :
    (intToU32 ((n : Int) - 1)).val = n - 1 := by
  simp only [intToU32, toU32]
  omega

theorem intToU32_neg_one : (intToU32 (((0 : Nat) : Int) - 1)).val = 4294967295 := by
  decide

/-- With opcode `JSR` at `PC`, the loop body hits an out-of-range store exactly
when the opcode sits at `0xFFFD`. -/
theorem step_JSR_eq_none_iff (m : Machine) (h : m.memory.Data m.cpu.PC = INS_JSR_ABSOLUTE) :
    CPU.step m = none ↔ m.cpu.PC.val = 0xFFFD := by
  have hpc := m.cpu.PC.isLt
  rw [step_JSR m h, Option.map_eq_none', pc3_val]
  constructor
  · intro hnone
    by_contra hne
    have h0 : 0 < (m.cpu.PC.val + 3) % 65536 := by omega
    have hlt : (m.cpu.PC.val + 3) % 65536 < 65536 := by omega
    have ha : (intToU32 ((((m.cpu.PC.val + 3) % 65536 : Nat) : Int) - 1)).val + 1 < 65536 := by
      rw [intToU32_pred _ h0 hlt]
      omega
    rw [writeBytes_of_lt _ _ _ _ ha] at hnone
    exact Option.noConfusion hnone
  · intro heq
    apply writeBytes_of_ge
    have e : (m.cpu.PC.val + 3) % 65536 = 0 := by omega
    rw [e, intToU32_neg_one]
    decide

theorem toU16_lor_shiftLeft_8 (lo hi : u8) :
    (toU16 (lo.val ||| (hi.val <<< 8))).val = lo.val + 256 * hi.val := by
  have h1 := lo.isLt
  have h2 := hi.isLt
  rw [lor_shiftLeft_8 _ _ h1]
  simp only [toU16]
  omega

theorem read_next2 (mem : Memory) (pc : u16) :
    mem.read ((pc.val + 2) % 65536)
      = some (mem.Data (toU16 ((toU16 (pc.val + 1)).val + 1))) := by
  have e : (pc.val + 2) % 65536 = (toU16 ((toU16 (pc.val + 1)).val + 1)).val := by
    simp only [toU16]
    omega
  rw [e, Memory.read_val]

/-- C11. For every machine whose byte at `PC` is `0x20` and whose opcode does not
sit at `0xFFFD` (the one position at which an access of the instruction is out of
range), one instruction succeeds; afterwards `PC = lo + 256 * hi` for the two bytes
`lo`, `hi` that followed the opcode before the instruction ran, and `SP` is the old
`SP` plus 1 modulo 256. -/
theorem JSR_sets_PC_and_SP (m : Machine)
    (hop : m.memory.read m.cpu.PC.val = some INS_JSR_ABSOLUTE)
    (hr : m.cpu.PC.val ≠ 0xFFFD) :
    ∃ lo hi m1, m.memory.read ((m.cpu.PC.val + 1) % 65536) = some lo ∧
      m.memory.read ((m.cpu.PC.val + 2) % 65536) = some hi ∧
      CPU.step m = some m1 ∧
      m1.cpu.PC.val = lo.val + 256 * hi.val ∧
      m1.cpu.SP.val = (m.cpu.SP.val + 1) % 256 := by
  have h : m.memory.Data m.cpu.PC = INS_JSR_ABSOLUTE := by
    rw [Memory.read_val] at hop
    exact Option.some.inj hop
  have hsome : CPU.step m ≠ none := fun hn => hr ((step_JSR_eq_none_iff m h).1 hn)
  obtain ⟨m1, hm1⟩ := Option.ne_none_iff_exists'.1 hsome
  have hstep := hm1
  rw [step_JSR m h, Option.map_eq_some'] at hm1
  obtain ⟨r, _, hr1⟩ := hm1
  refine ⟨_, _, m1, read_next _ _, read_next2 _ _, hstep, ?_, ?_⟩
  · rw [← hr1]
    exact toU16_lor_shiftLeft_8 _ _
  · rw [← hr1]
    rfl

/-- C11 at the `JSR` scenario: opcode at `0xFFFC`, operand bytes `0x42`, `0x80`. -/
theorem JSR_sets_PC_and_SP_witness :
    ∃ lo hi m1,
      (budgetMachine INS_JSR_ABSOLUTE 6).memory.read
        (((budgetMachine INS_JSR_ABSOLUTE 6).cpu.PC.val + 1) % 65536) = some lo ∧
      (budgetMachine INS_JSR_ABSOLUTE 6).memory.read
        (((budgetMachine INS_JSR_ABSOLUTE 6).cpu.PC.val + 2) % 65536) = some hi ∧
      CPU.step (budgetMachine INS_JSR_ABSOLUTE 6) = some m1 ∧
      m1.cpu.PC.val = lo.val + 256 * hi.val ∧
      m1.cpu.SP.val = ((budgetMachine INS_JSR_ABSOLUTE 6).cpu.SP.val + 1) % 256 :=
  JSR_sets_PC_and_SP (budgetMachine INS_JSR_ABSOLUTE 6) (by decide) (by decide)

/-- C12 (the code at a failing input). In the `JSR` scenario (opcode at `0xFFFC`,
`SP = 0`) the return address is `0xFFFE`. After the instruction the cell at the old
`SP` holds its low byte `0xFE`, but the next cell holds `0x00`, not the high byte
`0xFF`; the cells `0x0100` and `0x0101` hold 0 as well. -/
theorem JSR_stores_only_the_low_byte :
    (budgetMachine INS_JSR_ABSOLUTE 6).cpu.SP.val = 0 ∧
    ((budgetMachine INS_JSR_ABSOLUTE 6).cpu.PC.val + 3) % 65536 - 1 = 0xFFFE ∧
    ∃ m1, CPU.step (budgetMachine INS_JSR_ABSOLUTE 6) = some m1 ∧
      m1.memory.read 0 = some 0xFE ∧ m1.memory.read 1 = some 0x00 ∧
      m1.memory.read 1 ≠ some 0xFF ∧
      m1.memory.read 0x0100 = some 0x00 ∧ m1.memory.read 0x0101 = some 0x00 :=
  ⟨rfl, rfl, _, rfl, rfl, rfl, by decide, rfl, rfl⟩

/-- C18 (the code at a failing input). In the `JSR` scenario (opcode at `0xFFFC`,
operand bytes `0x42`, `0x80`, `SP = 0`) the operand cell `0xFFFE`, which is not the
cell at `SP`, holds `0x80` before the instruction and `0x00` (the value of `SP`)
after it. -/
theorem JSR_overwrites_its_operand :
    (budgetMachine INS_JSR_ABSOLUTE 6).cpu.SP.val = 0 ∧
    (budgetMachine INS_JSR_ABSOLUTE 6).memory.read 0xFFFE = some 0x80 ∧
    ∃ m1, CPU.step (budgetMachine INS_JSR_ABSOLUTE 6) = some m1 ∧
      m1.memory.read 0xFFFE = some 0x00 ∧
      m1.memory.read 0xFFFE ≠ (budgetMachine INS_JSR_ABSOLUTE 6).memory.read 0xFFFE :=
  ⟨rfl, rfl, _, rfl, rfl, by decide⟩

theorem execute_fault (fuel : Nat) (m : Machine) (hc : 0 < m.cycles.val)
    (hs : CPU.step m = none) : CPU.execute (fuel + 1) m = Outcome.fault := by
  simp [CPU.execute, hc, hs]

theorem step_wrapMachine : CPU.step wrapMachine = none :=
  (step_JSR_eq_none_iff wrapMachine rfl).2 rfl

theorem setup_wrap (cpu : CPU) :
    setup cpu [(0xFFFC, 0xFF), (0xFFFD, INS_JSR_ABSOLUTE)] 8
      = some { cpu := cpu0,
               memory := (Memory.zero.store 0xFFFC 0xFF).store 0xFFFD INS_JSR_ABSOLUTE,
               cycles := toU32 8 } := by
  simp only [setup, reset_snd, reset_fst, initialize_zero]
  rfl

/-- C19 (the code at a failing input). With a positive budget, `PC = 0xFFFD` and
the opcode `0x20` there, the loop body performs a store outside the memory: after
the operand fetch `PC` is 0, `PC - 1` is `-1`, which as the `u32` address of
`writeBytes` is `0xFFFFFFFF`. `execute` ends in that failure; so it does from
`reset` with the bytes `0xFF`, `0x20` at `0xFFFC`, `0xFFFD` and budget 8. -/
theorem JSR_at_0xFFFD_stores_out_of_range :
    wrapMachine.cpu.PC.val = 0xFFFD ∧
    wrapMachine.memory.read wrapMachine.cpu.PC.val = some INS_JSR_ABSOLUTE ∧
    0 < wrapMachine.cycles.val ∧
    (intToU32 (((0 : Nat) : Int) - 1)).val = 0xFFFFFFFF ∧
    CPU.step wrapMachine = none ∧
    (∀ fuel, CPU.execute (fuel + 1) wrapMachine = Outcome.fault) ∧
    (∀ cpu, ∃ m0, setup cpu [(0xFFFC, 0xFF), (0xFFFD, INS_JSR_ABSOLUTE)] 8 = some m0 ∧
      ∀ fuel, CPU.execute (fuel + 2) m0 = Outcome.fault) := by
  refine ⟨rfl, rfl, by decide, intToU32_neg_one, step_wrapMachine,
    fun fuel => execute_fault fuel _ (by decide) step_wrapMachine,
    fun cpu => ⟨_, setup_wrap cpu, fun fuel => ?_⟩⟩
  have hpos : 0 < (toU32 8).val := by decide
  have h1 :
      CPU.step { cpu := cpu0,
                 memory := (Memory.zero.store 0xFFFC 0xFF).store 0xFFFD INS_JSR_ABSOLUTE,
                 cycles := toU32 8 }
        = some { cpu := { cpu0 with PC := 0xFFFD },
                 memory := (Memory.zero.store 0xFFFC 0xFF).store 0xFFFD INS_JSR_ABSOLUTE,
                 cycles := toU32 7 } := rfl
  rw [execute_succ (fuel + 1) _ _ hpos h1]
  exact execute_fault fuel _ (by decide) ((step_JSR_eq_none_iff _ rfl).2 rfl)

/-! ## Unhandled opcodes -/

/-- C13. For every machine with a positive budget whose byte at `PC` is none of
`0xA9`, `0xA5`, `0xB5`, `0x20`, the loop body succeeds, leaves `SP`, `Acc`, `X`, `Y`,
the flags and the memory unchanged, advances `PC` by 1 (modulo `2^16`) and charges
1 cycle. The loop is not halted: `execute` has not returned before that iteration;
with a budget of exactly 1 it returns the state after it; with budget remaining it
has not returned after it either, and its next iteration is the loop body at the
next byte, whose result decides how `execute` goes on (an out-of-range access
ends it in the failure, a state with no cycles left is returned, a state with
cycles left is not yet returned). -/
theorem unhandled_opcode_is_skipped (m : Machine) (b : u8) (hc : 0 < m.cycles.val)
    (hb : m.memory.read m.cpu.PC.val = some b)
    (h1 : b ≠ INS_LDA_IMMEDIATE) (h2 : b ≠ INS_LDA_ZP) (h3 : b ≠ INS_LDA_ZPX)
    (h4 : b ≠ INS_JSR_ABSOLUTE) :
    ∃ m1, CPU.step m = some m1 ∧
      m1.cpu.SP = m.cpu.SP ∧ m1.cpu.Acc = m.cpu.Acc ∧ m1.cpu.X = m.cpu.X ∧
      m1.cpu.Y = m.cpu.Y ∧ m1.cpu.PS = m.cpu.PS ∧ m1.memory = m.memory ∧
      m1.cpu.PC.val = (m.cpu.PC.val + 1) % 65536 ∧
      m1.cycles.val = m.cycles.val - 1 ∧
      (∀ fuel, CPU.execute (fuel + 1) m = CPU.execute fuel m1) ∧
      (1 < m.cycles.val → ∀ fuel m2, CPU.step m1 = some m2 →
        CPU.execute (fuel + 2) m = CPU.execute fuel m2) ∧
      CPU.execute 0 m = Outcome.outOfFuel ∧
      (m.cycles.val = 1 → ∀ fuel, CPU.execute (fuel + 1) m = Outcome.returned m1) ∧
      (1 < m.cycles.val → CPU.execute 1 m = Outcome.outOfFuel) ∧
      (1 < m.cycles.val → CPU.step m1 = none →
        ∀ fuel, CPU.execute (fuel + 2) m = Outcome.fault) ∧
      (1 < m.cycles.val → ∀ m2, CPU.step m1 = some m2 →
        (m2.cycles.val = 0 → ∀ fuel, CPU.execute (fuel + 2) m = Outcome.returned m2) ∧
        (0 < m2.cycles.val → CPU.execute 2 m = Outcome.outOfFuel)) := by
  have hd : m.memory.Data m.cpu.PC = b := by
    rw [Memory.read_val] at hb
    exact Option.some.inj hb
  have hstep := step_unhandled m (hd ▸ h1) (hd ▸ h2) (hd ▸ h3) (hd ▸ h4)
  have hcyc : (subCycles m.cycles 1).val = m.cycles.val - 1 := subCycles_val _ 1 hc
  refine ⟨_, hstep, rfl, rfl, rfl, rfl, rfl, rfl, rfl, hcyc,
    fun fuel => execute_succ fuel _ _ hc hstep, fun hgt fuel m2 hs => ?_,
    execute_zero_of_pos m hc, fun hone fuel => ?_, fun hgt => ?_, fun hgt hs fuel => ?_,
    fun hgt m2 hs => ⟨fun hz fuel => ?_, fun hpos => ?_⟩⟩
  · rw [execute_succ (fuel + 1) _ _ hc hstep]
    exact execute_succ fuel _ _ (by rw [hcyc]; omega) hs
  · rw [execute_succ fuel _ _ hc hstep]
    exact execute_of_cycles_zero _ _ (by rw [hcyc]; omega)
  · rw [execute_succ 0 _ _ hc hstep]
    exact execute_zero_of_pos _ (by rw [hcyc]; omega)
  · rw [execute_succ (fuel + 1) _ _ hc hstep]
    exact execute_fault fuel _ (by rw [hcyc]; omega) hs
  · rw [execute_succ (fuel + 1) _ _ hc hstep, execute_succ fuel _ _ (by rw [hcyc]; omega) hs]
    exact execute_of_cycles_zero _ _ hz
  · rw [execute_succ 1 _ _ hc hstep, execute_succ 0 _ _ (by rw [hcyc]; omega) hs]
    exact execute_zero_of_pos _ hpos

/-- C13 at opcode `0xFF` on the machine left by `reset`, followed by `LDA`
immediate with operand `0x07`, budget 3: `execute` has not returned after the
unmapped byte, and after the next iteration it returns with `Acc = 0x07`,
`PC = 0xFFFF` and no cycles left. -/
theorem unhandled_opcode_is_skipped_witness :
    (∃ m1, CPU.step skipMachine = some m1 ∧
      m1.cpu.SP = skipMachine.cpu.SP ∧ m1.cpu.Acc = skipMachine.cpu.Acc ∧
      m1.cpu.X = skipMachine.cpu.X ∧ m1.cpu.Y = skipMachine.cpu.Y ∧
      m1.cpu.PS = skipMachine.cpu.PS ∧ m1.memory = skipMachine.memory ∧
      m1.cpu.PC.val = (skipMachine.cpu.PC.val + 1) % 65536 ∧
      m1.cycles.val = skipMachine.cycles.val - 1 ∧
      (∀ fuel, CPU.execute (fuel + 1) skipMachine = CPU.execute fuel m1) ∧
      (1 < skipMachine.cycles.val → ∀ fuel m2, CPU.step m1 = some m2 →
        CPU.execute (fuel + 2) skipMachine = CPU.execute fuel m2) ∧
      CPU.execute 0 skipMachine = Outcome.outOfFuel ∧
      (skipMachine.cycles.val = 1 →
        ∀ fuel, CPU.execute (fuel + 1) skipMachine = Outcome.returned m1) ∧
      (1 < skipMachine.cycles.val → CPU.execute 1 skipMachine = Outcome.outOfFuel) ∧
      (1 < skipMachine.cycles.val → CPU.step m1 = none →
        ∀ fuel, CPU.execute (fuel + 2) skipMachine = Outcome.fault) ∧
      (1 < skipMachine.cycles.val → ∀ m2, CPU.step m1 = some m2 →
        (m2.cycles.val = 0 →
          ∀ fuel, CPU.execute (fuel + 2) skipMachine = Outcome.returned m2) ∧
        (0 < m2.cycles.val → CPU.execute 2 skipMachine = Outcome.outOfFuel))) ∧
    skipMachine.memory.read skipMachine.cpu.PC.val = some 0xFF ∧
    CPU.execute 1 skipMachine = Outcome.outOfFuel ∧
    ∃ mf, CPU.execute 2 skipMachine = Outcome.returned mf ∧
      mf.cpu.Acc = 0x07 ∧ mf.cpu.PC.val = 0xFFFF ∧ mf.cycles.val = 0 :=
  ⟨unhandled_opcode_is_skipped skipMachine 0xFF (by decide) (by decide)
      (by decide) (by decide) (by decide) (by decide),
   by decide, rfl, _, rfl, rfl, rfl, rfl⟩

/-! ## Registers and flags that no instruction writes -/

theorem step_keeps (m m1 : Machine) (h : CPU.step m = some m1) :
    m1.cpu.X = m.cpu.X ∧ m1.cpu.Y = m.cpu.Y ∧ m1.cpu.PS.C = m.cpu.PS.C ∧
    m1.cpu.PS.I = m.cpu.PS.I ∧ m1.cpu.PS.D = m.cpu.PS.D ∧ m1.cpu.PS.B = m.cpu.PS.B ∧
    m1.cpu.PS.O = m.cpu.PS.O := by
  by_cases h1 : m.memory.Data m.cpu.PC = INS_LDA_IMMEDIATE
  · rw [step_LDA_IMMEDIATE m h1] at h
    rw [← Option.some.inj h]
    exact ⟨rfl, rfl, rfl, rfl, rfl, rfl, rfl⟩
  by_cases h2 : m.memory.Data m.cpu.PC = INS_LDA_ZP
  · rw [step_LDA_ZP m h2] at h
    rw [← Option.some.inj h]
    exact ⟨rfl, rfl, rfl, rfl, rfl, rfl, rfl⟩
  by_cases h3 : m.memory.Data m.cpu.PC = INS_LDA_ZPX
  · rw [step_LDA_ZPX m h3] at h
    rw [← Option.some.inj h]
    exact ⟨rfl, rfl, rfl, rfl, rfl, rfl, rfl⟩
  by_cases h4 : m.memory.Data m.cpu.PC = INS_JSR_ABSOLUTE
  · rw [step_JSR m h4, Option.map_eq_some'] at h
    obtain ⟨r, _, hr⟩ := h
    rw [← hr]
    exact ⟨rfl, rfl, rfl, rfl, rfl, rfl, rfl⟩
  · rw [step_unhandled m h1 h2 h3 h4] at h
    rw [← Option.some.inj h]
    exact ⟨rfl, rfl, rfl, rfl, rfl, rfl, rfl⟩

theorem stepN_keeps (n : Nat) : ∀ (m m1 : Machine), CPU.stepN n m = some m1 →
    m1.cpu.X = m.cpu.X ∧ m1.cpu.Y = m.cpu.Y ∧ m1.cpu.PS.C = m.cpu.PS.C ∧
    m1.cpu.PS.I = m.cpu.PS.I ∧ m1.cpu.PS.D = m.cpu.PS.D ∧ m1.cpu.PS.B = m.cpu.PS.B ∧
    m1.cpu.PS.O = m.cpu.PS.O := by
  induction n with
  | zero =>
    intro m m1 h
    rw [← Option.some.inj h]
    exact ⟨rfl, rfl, rfl, rfl, rfl, rfl, rfl⟩
  | succ n ih =>
    intro m m1 h
    simp only [CPU.stepN, Option.bind_eq_some] at h
    obtain ⟨m', hs, hn⟩ := h
    obtain ⟨a1, a2, a3, a4, a5, a6, a7⟩ := step_keeps m m' hs
    obtain ⟨b1, b2, b3, b4, b5, b6, b7⟩ := ih m' m1 hn
    exact ⟨b1.trans a1, b2.trans a2, b3.trans a3, b4.trans a4, b5.trans a5, b6.trans a6,
      b7.trans a7⟩

/-- Whatever `execute` returns is reached by some number of loop iterations. -/
theorem execute_returned_stepN (fuel : Nat) : ∀ (m m1 : Machine),
    CPU.execute fuel m = Outcome.returned m1 → ∃ n, CPU.stepN n m = some m1 := by
  induction fuel with
  | zero =>
    intro m m1 h
    by_cases hc : 0 < m.cycles.val
    · simp [CPU.execute, hc] at h
    · rw [execute_of_cycles_zero _ _ (by omega)] at h
      exact ⟨0, congrArg some (Outcome.returned.inj h)⟩
  | succ fuel ih =>
    intro m m1 h
    by_cases hc : 0 < m.cycles.val
    · cases hs : CPU.step m with
      | none => simp [CPU.execute, hc, hs] at h
      | some m' =>
        rw [execute_succ fuel m m' hc hs] at h
        obtain ⟨n, hn⟩ := ih m' m1 h
        exact ⟨n + 1, by simp only [CPU.stepN, hs, Option.some_bind, hn]⟩
    · rw [execute_of_cycles_zero _ _ (by omega)] at h
      exact ⟨0, congrArg some (Outcome.returned.inj h)⟩

theorem toU8_add_zero (z : u8) : toU8 (z.val + 0) = z :=
  Fin.ext (Nat.mod_eq_of_lt z.isLt)

/-- C20. For every machine `m` and every number `n` of loop iterations that lead
from `m` to a machine `m1`, `X`, `Y` and the Carry, Interrupt, Decimal, Break and
Overflow flags of `m1` are those of `m`. Hence, when the processor of `m` is as
`reset` leaves it, `X = 0` in `m1`, and in `m1` the opcodes `0xA5` and `0xB5` both
load the byte at the zero-page address given by the operand byte `z`. -/
theorem X_Y_and_flags_invariant (n : Nat) (m m1 : Machine) (h : CPU.stepN n m = some m1) :
    (m1.cpu.X = m.cpu.X ∧ m1.cpu.Y = m.cpu.Y ∧ m1.cpu.PS.C = m.cpu.PS.C ∧
      m1.cpu.PS.I = m.cpu.PS.I ∧ m1.cpu.PS.D = m.cpu.PS.D ∧ m1.cpu.PS.B = m.cpu.PS.B ∧
      m1.cpu.PS.O = m.cpu.PS.O) ∧
    (∀ cpu mem, m.cpu = (CPU.reset cpu mem).1 →
      m1.cpu.X.val = 0 ∧
      ∀ z, m1.memory.read ((m1.cpu.PC.val + 1) % 65536) = some z →
        (m1.memory.read m1.cpu.PC.val = some INS_LDA_ZP ∨
          m1.memory.read m1.cpu.PC.val = some INS_LDA_ZPX) →
        ∃ m2, CPU.step m1 = some m2 ∧ some m2.cpu.Acc = m1.memory.read z.val) := by
  have hk := stepN_keeps n m m1 h
  refine ⟨hk, fun cpu mem hreset => ?_⟩
  have hX : m1.cpu.X = 0 := by
    rw [hk.1, hreset, reset_fst]
    rfl
  refine ⟨by rw [hX]; rfl, fun z hz hop => ?_⟩
  rw [read_next, Option.some.injEq] at hz
  simp only [Memory.read_val, Option.some.injEq] at hop
  rcases hop with hop | hop
  · refine ⟨_, step_LDA_ZP m1 hop, ?_⟩
    rw [Memory.read_u8, hz, hX]
    show some (m1.memory.Data (zeroPage (toU8 (z.val + 0)))) = _
    rw [toU8_add_zero]
  · refine ⟨_, step_LDA_ZPX m1 hop, ?_⟩
    rw [Memory.read_u8, hz]
    rfl

/-- C20 at two loop iterations from the machine left by `reset` with the program
bytes `0xA5`, `0x42`, `0x80`. -/
theorem X_Y_and_flags_invariant_witness :
    ∃ m1, CPU.stepN 2 (budgetMachine INS_LDA_ZP 8) = some m1 ∧
      ((m1.cpu.X = (budgetMachine INS_LDA_ZP 8).cpu.X ∧
        m1.cpu.Y = (budgetMachine INS_LDA_ZP 8).cpu.Y ∧
        m1.cpu.PS.C = (budgetMachine INS_LDA_ZP 8).cpu.PS.C ∧
        m1.cpu.PS.I = (budgetMachine INS_LDA_ZP 8).cpu.PS.I ∧
        m1.cpu.PS.D = (budgetMachine INS_LDA_ZP 8).cpu.PS.D ∧
        m1.cpu.PS.B = (budgetMachine INS_LDA_ZP 8).cpu.PS.B ∧
        m1.cpu.PS.O = (budgetMachine INS_LDA_ZP 8).cpu.PS.O) ∧
      (∀ cpu mem, (budgetMachine INS_LDA_ZP 8).cpu = (CPU.reset cpu mem).1 →
        m1.cpu.X.val = 0 ∧
        ∀ z, m1.memory.read ((m1.cpu.PC.val + 1) % 65536) = some z →
          (m1.memory.read m1.cpu.PC.val = some INS_LDA_ZP ∨
            m1.memory.read m1.cpu.PC.val = some INS_LDA_ZPX) →
          ∃ m2, CPU.step m1 = some m2 ∧ some m2.cpu.Acc = m1.memory.read z.val)) :=
  ⟨_, rfl, X_Y_and_flags_invariant 2 (budgetMachine INS_LDA_ZP 8) _ rfl⟩

end Emu6502
